import Mathlib

/-! Formalization of the distributed compute orchestrator of
`src/offchain/ocean_compute.py` and the model evaluator of
`src/offchain/model_evaluation.py`.  Numeric values carried by the Python
code as floats (compute times, metric values, confidence scores) are
modelled as rationals; Python dicts keyed by strings are modelled as
association lists that preserve insertion order, matching dict iteration
order. -/

/-- Record of one compute job as seen by `_aggregate_results`: the fields
`status`, `data` and `compute_time` are what the result fetch for the job
returns, `metrics` is what `metrics_tracker.get_job_metrics` returns for
it, and `attestation_valid` is the verdict `is_valid` that
`rofl_verifier.verify_job_attestation` would yield for the job. -/
structure Job where
  job_id : String
  status : String
  data : String
  compute_time : ℚ
  metrics : List (String × ℚ)
  attestation_valid : Bool
deriving DecidableEq

/-- Running state of the aggregation loop in `_aggregate_results`:
`metricLists` is the `metrics` dict while it still maps each metric name
to the list of collected values. -/
structure AggState where
  success_count : Nat
  failed_count : Nat
  total_compute_time : ℚ
  results : List String
  metricLists : List (String × List ℚ)
deriving DecidableEq

/-- Append a value to the entry of a metric name, creating the entry at the
end when absent — the behaviour of
`aggregated_results[metrics].setdefault-style` insertion in the source. -/
def insertMetric : List (String × List ℚ) → String → ℚ → List (String × List ℚ)
  | [], k, v => [(k, [v])]
  | (k0, vs) :: rest, k, v =>
    if k0 = k then (k0, vs ++ [v]) :: rest
    else (k0, vs) :: insertMetric rest k v

/-- Fold one job's metric dict into the accumulated metric lists, in
iteration order. -/
def foldJobMetrics (m : List (String × List ℚ)) (ms : List (String × ℚ)) :
    List (String × List ℚ) :=
  ms.foldl (fun acc kv => insertMetric acc kv.1 kv.2) m

/-- Status branch of the aggregation loop body: a `completed` job bumps
`success_count` and appends its data to `results`, any other job bumps
`failed_count`; afterwards the job's compute time is added
unconditionally, exactly as in the source. -/
def stepCounts (acc : AggState) (job : Job) : AggState :=
  let acc1 :=
    if job.status = "completed" then
      { acc with success_count := acc.success_count + 1,
                 results := acc.results ++ [job.data] }
    else
      { acc with failed_count := acc.failed_count + 1 }
  { acc1 with total_compute_time := acc1.total_compute_time + job.compute_time }

/-- Full body of the per-job aggregation loop of `_aggregate_results`. -/
def stepJob (acc : AggState) (job : Job) : AggState :=
  let acc2 := stepCounts acc job
  { acc2 with metricLists := foldJobMetrics acc2.metricLists job.metrics }

/-- Initial accumulator of `_aggregate_results`. -/
def initAgg : AggState := ⟨0, 0, 0, [], []⟩

/-- Arithmetic mean used by the final `sum(values) / len(values)` pass. -/
def meanQ (vs : List ℚ) : ℚ := vs.sum / (vs.length : ℚ)

/-- Value returned by `_aggregate_results` after the averaging pass. -/
structure AggregatedResults where
  success_count : Nat
  failed_count : Nat
  total_compute_time : ℚ
  results : List String
  metrics : List (String × ℚ)
deriving DecidableEq

/-- Final averaging pass of `_aggregate_results`. -/
def finalizeAgg (st : AggState) : AggregatedResults :=
  ⟨st.success_count, st.failed_count, st.total_compute_time, st.results,
   st.metricLists.map (fun kv => (kv.1, meanQ kv.2))⟩

/-- The `_aggregate_results` computation as a function of the job records of
the group, in group order. -/
def aggregate_results (jobs : List Job) : AggregatedResults :=
  finalizeAgg (jobs.foldl stepJob initAgg)

theorem stepJob_success (a : AggState) (j : Job) :
    (stepJob a j).success_count =
      if j.status = "completed" then a.success_count + 1 else a.success_count := by
  simp only [stepJob, stepCounts]
  split <;> rfl

theorem stepJob_failed (a : AggState) (j : Job) :
    (stepJob a j).failed_count =
      if j.status = "completed" then a.failed_count else a.failed_count + 1 := by
  simp only [stepJob, stepCounts]
  split <;> rfl

theorem stepJob_time (a : AggState) (j : Job) :
    (stepJob a j).total_compute_time = a.total_compute_time + j.compute_time := by
  simp only [stepJob, stepCounts]
  split <;> rfl

theorem stepJob_results (a : AggState) (j : Job) :
    (stepJob a j).results =
      if j.status = "completed" then a.results ++ [j.data] else a.results := by
  simp only [stepJob, stepCounts]
  split <;> rfl

theorem stepJob_metricLists (a : AggState) (j : Job) :
    (stepJob a j).metricLists = foldJobMetrics a.metricLists j.metrics := by
  simp only [stepJob, stepCounts]
  split <;> rfl

theorem foldl_stepJob_success (jobs : List Job) (a : AggState) :
    (jobs.foldl stepJob a).success_count =
      a.success_count +
        (jobs.filter (fun j => decide (j.status = "completed"))).length := by
  induction jobs generalizing a with
  | nil => simp
  | cons j js ih =>
    rw [List.foldl_cons, ih, stepJob_success]
    by_cases h : j.status = "completed" <;> simp [h, List.filter_cons] <;> omega

theorem foldl_stepJob_failed (jobs : List Job) (a : AggState) :
    (jobs.foldl stepJob a).failed_count =
      a.failed_count +
        (jobs.filter (fun j => !decide (j.status = "completed"))).length := by
  induction jobs generalizing a with
  | nil => simp
  | cons j js ih =>
    rw [List.foldl_cons, ih, stepJob_failed]
    by_cases h : j.status = "completed" <;> simp [h, List.filter_cons] <;> omega

theorem filter_length_split (p : Job → Bool) (l : List Job) :
    (l.filter p).length + (l.filter (fun j => !p j)).length = l.length := by
  induction l with
  | nil => simp
  | cons x xs ih =>
    cases h : p x <;> simp [List.filter_cons, h] <;> omega

/-- C8: for every job group on which aggregation runs, the returned
`success_count` plus `failed_count` equals the number of jobs in the group:
the loop counts every job in exactly one of the two counters. -/
theorem aggregate_counts_partition (jobs : List Job) :
    (aggregate_results jobs).success_count + (aggregate_results jobs).failed_count
      = jobs.length := by
  have hs := foldl_stepJob_success jobs initAgg
  have hf := foldl_stepJob_failed jobs initAgg
  have hsplit := filter_length_split (fun j => decide (j.status = "completed")) jobs
  simp only [aggregate_results, finalizeAgg, initAgg] at *
  omega

theorem foldl_stepJob_time (jobs : List Job) (a : AggState) :
    (jobs.foldl stepJob a).total_compute_time =
      a.total_compute_time + (jobs.map Job.compute_time).sum := by
  induction jobs generalizing a with
  | nil => simp
  | cons j js ih =>
    rw [List.foldl_cons, ih, stepJob_time]
    simp [add_assoc]

theorem foldl_stepJob_results (jobs : List Job) (a : AggState) :
    (jobs.foldl stepJob a).results =
      a.results ++
        ((jobs.filter (fun j => decide (j.status = "completed"))).map Job.data) := by
  induction jobs generalizing a with
  | nil => simp
  | cons j js ih =>
    rw [List.foldl_cons, ih, stepJob_results]
    by_cases h : j.status = "completed" <;> simp [h, List.filter_cons]

theorem stepJob_attestation_irrelevant (a : AggState) (j : Job) (b : Bool) :
    stepJob a { j with attestation_valid := b } = stepJob a j := rfl

theorem foldl_stepJob_attestation (jobs : List Job) (f : Job → Bool) (a : AggState) :
    (jobs.map (fun j => { j with attestation_valid := f j })).foldl stepJob a =
      jobs.foldl stepJob a := by
  induction jobs generalizing a with
  | nil => rfl
  | cons j js ih =>
    rw [List.map_cons, List.foldl_cons, List.foldl_cons,
      stepJob_attestation_irrelevant, ih]

/-- The `_collect_verify_results` loop of `model_evaluation.py`: for each
evaluation job, the attestation is verified first and an invalid
attestation raises (`ValueError`) immediately; otherwise the job's
(externally verified) results are added to the dict keyed by job id. -/
def collect_verify_results : List Job → Except String (List (String × String))
  | [] => Except.ok []
  | job :: rest =>
    if job.attestation_valid then
      match collect_verify_results rest with
      | Except.error e => Except.error e
      | Except.ok tl => Except.ok ((job.job_id, job.data) :: tl)
    else Except.error ("Invalid attestation for job " ++ job.job_id)

/-- Completed job whose attestation verdict is valid, used as a concrete
input below. -/
def demoGoodJob : Job :=
  ⟨"job-1", "completed", "payload-1", 5, [("accuracy", 1)], true⟩

/-- Completed job whose attestation verdict is invalid, used as a concrete
input below. -/
def demoBadJob : Job :=
  ⟨"job-2", "completed", "payload-2", 7, [], false⟩

/-- C1 counterexample: a group holding one job of status `completed` whose
attestation verdict is invalid is still counted in `success_count` and its
data folded into the merged results — the aggregation loop of
`_aggregate_results` never invokes the attestation verifier, contradicting
the claim that such a job is reclassified `Failed`. -/
theorem aggregate_counts_unverified_success :
    demoBadJob.status = "completed" ∧
    demoBadJob.attestation_valid = false ∧
    (aggregate_results [demoBadJob]).success_count = 1 ∧
    (aggregate_results [demoBadJob]).failed_count = 0 ∧
    (aggregate_results [demoBadJob]).results = ["payload-2"] := by
  refine ⟨rfl, rfl, ?_, ?_, ?_⟩ <;>
    simp [aggregate_results, finalizeAgg, initAgg, stepJob, stepCounts,
      foldJobMetrics, demoBadJob]

/-- C1 (amended): the aggregation loop of `_aggregate_results` consults no
attestation verdict at all — its output is invariant under arbitrary
changes of the verdicts; every job whose status is `completed` is counted
in `success_count` and its data folded into the merged results, every
other job is counted in `failed_count`, and the compute time of every job
(failed ones included) is added to `total_compute_time`.  Separately, the
result-collection loop `_collect_verify_results` raises at the first job
with an invalid attestation instead of reclassifying it `Failed`. -/
theorem aggregate_no_verifier (jobs : List Job) (f : Job → Bool)
    (pre post : List Job) (bad : Job)
    (hpre : ∀ q ∈ pre, q.attestation_valid = true)
    (hbad : bad.attestation_valid = false) :
    aggregate_results (jobs.map (fun j => { j with attestation_valid := f j }))
        = aggregate_results jobs ∧
    (aggregate_results jobs).success_count
        = (jobs.filter (fun j => decide (j.status = "completed"))).length ∧
    (aggregate_results jobs).failed_count
        = (jobs.filter (fun j => !decide (j.status = "completed"))).length ∧
    (aggregate_results jobs).total_compute_time
        = (jobs.map Job.compute_time).sum ∧
    (aggregate_results jobs).results
        = (jobs.filter (fun j => decide (j.status = "completed"))).map Job.data ∧
    collect_verify_results (pre ++ bad :: post)
        = Except.error ("Invalid attestation for job " ++ bad.job_id) := by
  refine ⟨?_, ?_, ?_, ?_, ?_, ?_⟩
  · unfold aggregate_results
    rw [foldl_stepJob_attestation]
  · have h := foldl_stepJob_success jobs initAgg
    simpa [aggregate_results, finalizeAgg, initAgg] using h
  · have h := foldl_stepJob_failed jobs initAgg
    simpa [aggregate_results, finalizeAgg, initAgg] using h
  · have h := foldl_stepJob_time jobs initAgg
    simpa [aggregate_results, finalizeAgg, initAgg] using h
  · have h := foldl_stepJob_results jobs initAgg
    simpa [aggregate_results, finalizeAgg, initAgg] using h
  · induction pre with
    | nil => simp [collect_verify_results, hbad]
    | cons q qs ih =>
      have hq : q.attestation_valid = true := hpre q (by simp)
      have ihq := ih (fun r hr => hpre r (by simp [hr]))
      simp [collect_verify_results, hq, List.cons_append, ihq]

/-- Witness for `aggregate_no_verifier` at a concrete two-job group. -/
theorem aggregate_no_verifier_witness :
    collect_verify_results [demoGoodJob, demoBadJob]
      = Except.error ("Invalid attestation for job " ++ "job-2") :=
  (aggregate_no_verifier [] (fun _ => true) [demoGoodJob] [] demoBadJob
    (by intro q hq; simp at hq; rw [hq]; rfl) rfl).2.2.2.2.2

/-- Python dict access on the final metrics mapping. -/
def lookupMetric : List (String × ℚ) → String → Option ℚ
  | [], _ => none
  | (k0, v) :: rest, k => if k0 = k then some v else lookupMetric rest k

/-- Entry of a metric name in the intermediate value-list mapping. -/
def getEntry : List (String × List ℚ) → String → Option (List ℚ)
  | [], _ => none
  | (k0, vs) :: rest, k => if k0 = k then some vs else getEntry rest k

/-- Value list collected so far for a metric name, empty when absent. -/
def getVals (m : List (String × List ℚ)) (k : String) : List ℚ :=
  (getEntry m k).getD []

/-- Values a single metric dict reports under a given name, in order. -/
def valuesIn (ms : List (String × ℚ)) (k : String) : List ℚ :=
  (ms.filter (fun kv => decide (kv.1 = k))).map Prod.snd

/-- Concatenation of the values all jobs of the group report under a given
metric name, in group order — completed and failed jobs alike, since the
loop fetches `get_job_metrics` for every job. -/
def reportedValues (jobs : List Job) (k : String) : List ℚ :=
  (jobs.map (fun j => valuesIn j.metrics k)).flatten

theorem getVals_insertMetric (m : List (String × List ℚ)) (k0 k : String) (v : ℚ) :
    getVals (insertMetric m k0 v) k =
      getVals m k ++ (if k0 = k then [v] else []) := by
  induction m with
  | nil =>
    by_cases h : k0 = k <;> simp [insertMetric, getVals, getEntry, h]
  | cons p rest ih =>
    obtain ⟨k1, vs⟩ := p
    by_cases h1 : k1 = k0
    · subst h1
      by_cases h2 : k1 = k <;>
        simp [insertMetric, getVals, getEntry, h2]
    · by_cases h2 : k1 = k
      · have h3 : ¬ k0 = k := fun hc => h1 (h2.trans hc.symm)
        have h4 : ¬ k = k0 := fun hc => h3 hc.symm
        simp [insertMetric, getVals, getEntry, h1, h2, h3, h4]
      · simp only [insertMetric, getVals, getEntry, if_neg h1, if_neg h2]
        exact ih

theorem getVals_foldJobMetrics (ms : List (String × ℚ))
    (m : List (String × List ℚ)) (k : String) :
    getVals (foldJobMetrics m ms) k = getVals m k ++ valuesIn ms k := by
  induction ms generalizing m with
  | nil => simp [foldJobMetrics, valuesIn]
  | cons kv rest ih =>
    obtain ⟨k0, v⟩ := kv
    have hstep : foldJobMetrics m ((k0, v) :: rest)
        = foldJobMetrics (insertMetric m k0 v) rest := rfl
    rw [hstep, ih, getVals_insertMetric]
    by_cases h : k0 = k <;> simp [valuesIn, List.filter_cons, h]

theorem getVals_foldl_stepJob (jobs : List Job) (a : AggState) (k : String) :
    getVals ((jobs.foldl stepJob a).metricLists) k =
      getVals a.metricLists k ++ reportedValues jobs k := by
  induction jobs generalizing a with
  | nil => simp [reportedValues]
  | cons j js ih =>
    rw [List.foldl_cons, ih, stepJob_metricLists, getVals_foldJobMetrics]
    simp [reportedValues]

/-- Every entry of the intermediate metric mapping carries at least one
value: `insertMetric` only appends or creates singletons. -/
def entriesNonempty (m : List (String × List ℚ)) : Prop :=
  ∀ kv ∈ m, kv.2 ≠ []

theorem entriesNonempty_insertMetric (m : List (String × List ℚ))
    (k : String) (v : ℚ) (h : entriesNonempty m) :
    entriesNonempty (insertMetric m k v) := by
  induction m with
  | nil =>
    intro kv hkv
    simp [insertMetric] at hkv
    simp [hkv]
  | cons p rest ih =>
    obtain ⟨k1, vs⟩ := p
    have hrest : entriesNonempty rest := fun kv hkv => h kv (by simp [hkv])
    by_cases h1 : k1 = k
    · intro kv hkv
      simp [insertMetric, h1] at hkv
      rcases hkv with hkv | hkv
      · simp [hkv]
      · exact hrest kv hkv
    · intro kv hkv
      simp [insertMetric, h1] at hkv
      rcases hkv with hkv | hkv
      · exact h kv (by simp [hkv])
      · exact ih hrest kv hkv

theorem entriesNonempty_foldJobMetrics (ms : List (String × ℚ))
    (m : List (String × List ℚ)) (h : entriesNonempty m) :
    entriesNonempty (foldJobMetrics m ms) := by
  induction ms generalizing m with
  | nil => exact h
  | cons kv rest ih =>
    exact ih (insertMetric m kv.1 kv.2) (entriesNonempty_insertMetric m kv.1 kv.2 h)

theorem entriesNonempty_foldl_stepJob (jobs : List Job) (a : AggState)
    (h : entriesNonempty a.metricLists) :
    entriesNonempty ((jobs.foldl stepJob a).metricLists) := by
  induction jobs generalizing a with
  | nil => exact h
  | cons j js ih =>
    refine ih (stepJob a j) ?_
    rw [stepJob_metricLists]
    exact entriesNonempty_foldJobMetrics j.metrics a.metricLists h

theorem getEntry_some_nonempty (m : List (String × List ℚ)) (k : String)
    (vs : List ℚ) (h : entriesNonempty m) (hE : getEntry m k = some vs) :
    vs ≠ [] := by
  induction m with
  | nil => simp [getEntry] at hE
  | cons p rest ih =>
    obtain ⟨k1, vs1⟩ := p
    have hrest : entriesNonempty rest := fun kv hkv => h kv (by simp [hkv])
    by_cases h1 : k1 = k
    · have hvs : vs1 ≠ [] := h (k1, vs1) (by simp)
      rw [getEntry, if_pos h1] at hE
      exact (Option.some.inj hE) ▸ hvs
    · rw [getEntry, if_neg h1] at hE
      exact ih hrest hE

theorem lookupMetric_map_mean (m : List (String × List ℚ)) (k : String) :
    lookupMetric (m.map (fun kv => (kv.1, meanQ kv.2))) k =
      (getEntry m k).map meanQ := by
  induction m with
  | nil => simp [lookupMetric, getEntry]
  | cons p rest ih =>
    obtain ⟨k1, vs⟩ := p
    by_cases h1 : k1 = k <;> simp [lookupMetric, getEntry, h1, ih]

/-- C9 (amended): for every metric name, the aggregated value is the
arithmetic mean of that metric over all jobs of the group that reported
it — completed and failed jobs alike, since the aggregation loop fetches
the metrics of every job; jobs that omit the metric are excluded from its
mean rather than counted as zero, and a metric no job reported is absent
from the mapping. -/
theorem aggregate_metric_mean (jobs : List Job) (k : String) :
    lookupMetric (aggregate_results jobs).metrics k =
      if reportedValues jobs k = [] then none
      else some (meanQ (reportedValues jobs k)) := by
  have hne : entriesNonempty ((jobs.foldl stepJob initAgg).metricLists) :=
    entriesNonempty_foldl_stepJob jobs initAgg (by intro kv hkv; simp [initAgg] at hkv)
  have hvals : getVals ((jobs.foldl stepJob initAgg).metricLists) k
      = reportedValues jobs k := by
    rw [getVals_foldl_stepJob]
    simp [initAgg, getVals, getEntry]
  simp only [aggregate_results, finalizeAgg]
  rw [lookupMetric_map_mean]
  cases hE : getEntry ((jobs.foldl stepJob initAgg).metricLists) k with
  | none =>
    have hrep : reportedValues jobs k = [] := by
      rw [← hvals]
      simp [getVals, hE]
    simp [hrep]
  | some vs =>
    have hvs : vs ≠ [] := getEntry_some_nonempty _ _ _ hne hE
    have hrep : reportedValues jobs k = vs := by
      rw [← hvals]
      simp [getVals, hE]
    rw [hrep]
    simp [hvs]

/-- Failed job that still reports a metric value, used as a concrete input
below. -/
def demoFailedJob : Job :=
  ⟨"job-3", "failed", "payload-3", 2, [("accuracy", 0)], true⟩

/-- C9 counterexample: a group of one completed job reporting accuracy 1
and one failed job reporting accuracy 0 aggregates accuracy 1/2 — the
failed job's metric is folded into the mean, contradicting the claim that
metrics of failed jobs are excluded (which would give accuracy 1). -/
theorem metric_mean_includes_failed :
    demoFailedJob.status = "failed" ∧
    lookupMetric (aggregate_results [demoGoodJob, demoFailedJob]).metrics ("accuracy")
      = some (1 / 2) ∧
    ¬ lookupMetric (aggregate_results [demoGoodJob, demoFailedJob]).metrics ("accuracy")
      = some 1 := by
  have hval : lookupMetric
      (aggregate_results [demoGoodJob, demoFailedJob]).metrics ("accuracy")
      = some (1 / 2) := by
    simp [aggregate_results, finalizeAgg, initAgg, stepJob, stepCounts,
      foldJobMetrics, insertMetric, lookupMetric, meanQ, demoGoodJob,
      demoFailedJob]
  refine ⟨rfl, hval, ?_⟩
  rw [hval]
  intro hcontra
  have h := Option.some.inj hcontra
  norm_num at h


/-- Values of one metric-type dict that are not `None`, in order — the
`valid_metrics` list comprehension of `_calculate_confidence`. -/
def valid_values (mv : List (String × Option ℚ)) : List ℚ :=
  mv.filterMap Prod.snd

/-- Per-type scores of `_calculate_confidence`: one mean per metric type
that has at least one non-`None` value. -/
def metric_scores (metrics : List (String × List (String × Option ℚ))) : List ℚ :=
  metrics.filterMap (fun mt =>
    if valid_values mt.2 = [] then none
    else some (meanQ (valid_values mt.2)))

/-- The `_calculate_confidence` computation of `model_evaluation.py`: the
verification confidence (defaulting to 0 when the verification dict lacks
the key) is averaged with the mean per-type metric score, or returned
alone when no metric type has a valid value. -/
def calculate_confidence (metrics : List (String × List (String × Option ℚ)))
    (verification : Option ℚ) : ℚ :=
  let verification_score := verification.getD 0
  let scores := metric_scores metrics
  if scores = [] then verification_score
  else (verification_score + meanQ scores) / 2

/-- C5 counterexample: a metric value of 3 (regression metrics such as
`mse` are unbounded) with verification confidence 0 yields confidence 3/2,
outside the claimed interval; `_calculate_confidence` applies no clamping,
and no definition links the score to a `success_count` of the compute
group. -/
theorem confidence_exceeds_one :
    calculate_confidence [(("regression"), [(("mse"), some 3)])] (some 0) = 3 / 2 ∧
    ¬ calculate_confidence [(("regression"), [(("mse"), some 3)])] (some 0) ≤ 1 := by
  have hval : calculate_confidence [(("regression"), [(("mse"), some 3)])] (some 0)
      = 3 / 2 := by
    simp [calculate_confidence, metric_scores, valid_values, meanQ]
  refine ⟨hval, ?_⟩
  rw [hval]
  norm_num

theorem list_sum_le_length (l : List ℚ) (h : ∀ x ∈ l, x ≤ 1) :
    l.sum ≤ (l.length : ℚ) := by
  induction l with
  | nil => simp
  | cons x xs ih =>
    simp only [List.sum_cons, List.length_cons]
    push_cast
    have hx := h x (by simp)
    have hxs := ih (fun y hy => h y (by simp [hy]))
    linarith

theorem meanQ_nonneg (l : List ℚ) (h : ∀ x ∈ l, 0 ≤ x) : 0 ≤ meanQ l := by
  unfold meanQ
  exact div_nonneg (List.sum_nonneg h) (by positivity)

theorem meanQ_le_one (l : List ℚ) (hne : l ≠ []) (h : ∀ x ∈ l, x ≤ 1) :
    meanQ l ≤ 1 := by
  unfold meanQ
  have hlen : 0 < (l.length : ℚ) := by
    have hl : 0 < l.length := List.length_pos.mpr hne
    exact_mod_cast hl
  rw [div_le_one hlen]
  exact list_sum_le_length l h

/-- C5 (amended): `_calculate_confidence` applies no clamping, so the score
can leave `[0, 1]` when a metric value does; but whenever the verification
confidence and every non-`None` metric value lie in `[0, 1]`, the score
lies in `[0, 1]`, and when no metric type has a valid value the score
equals the verification confidence exactly (not 0).  The aggregation of
`ocean_compute.py` produces no confidence score at all, so no clause ties
the score to `success_count = 0`. -/
theorem calculate_confidence_bounds
    (metrics : List (String × List (String × Option ℚ)))
    (verification : Option ℚ)
    (hv0 : 0 ≤ verification.getD 0) (hv1 : verification.getD 0 ≤ 1)
    (hm : ∀ mt ∈ metrics, ∀ x ∈ valid_values mt.2, 0 ≤ x ∧ x ≤ 1) :
    0 ≤ calculate_confidence metrics verification ∧
    calculate_confidence metrics verification ≤ 1 ∧
    (metric_scores metrics = [] →
      calculate_confidence metrics verification = verification.getD 0) := by
  have hscores : ∀ s ∈ metric_scores metrics, 0 ≤ s ∧ s ≤ 1 := by
    intro s hs
    rcases List.mem_filterMap.mp hs with ⟨mt, hmt, hf⟩
    by_cases hemp : valid_values mt.2 = []
    · rw [if_pos hemp] at hf
      exact absurd hf (by simp)
    · rw [if_neg hemp] at hf
      have hx := Option.some.inj hf
      constructor
      · exact hx ▸ meanQ_nonneg _ (fun x hxm => (hm mt hmt x hxm).1)
      · exact hx ▸ meanQ_le_one _ hemp (fun x hxm => (hm mt hmt x hxm).2)
  simp only [calculate_confidence]
  by_cases hsc : metric_scores metrics = []
  · simp [hsc, hv0, hv1]
  · have hmean0 : 0 ≤ meanQ (metric_scores metrics) :=
      meanQ_nonneg _ (fun s hs => (hscores s hs).1)
    have hmean1 : meanQ (metric_scores metrics) ≤ 1 :=
      meanQ_le_one _ hsc (fun s hs => (hscores s hs).2)
    rw [if_neg hsc]
    refine ⟨?_, ?_, fun hc => absurd hc hsc⟩
    · exact div_nonneg (by linarith) (by norm_num)
    · rw [div_le_one (by norm_num : (0 : ℚ) < 2)]
      linarith

/-- Witness for `calculate_confidence_bounds` at one classification type
with one valid and one `None` metric value. -/
theorem calculate_confidence_bounds_witness :
    0 ≤ calculate_confidence
        [(("classification"), [(("accuracy"), some (1 / 2)), (("auc_roc"), none)])]
        (some (1 / 2)) ∧
    calculate_confidence
        [(("classification"), [(("accuracy"), some (1 / 2)), (("auc_roc"), none)])]
        (some (1 / 2)) ≤ 1 := by
  have h := calculate_confidence_bounds
    [(("classification"), [(("accuracy"), some (1 / 2)), (("auc_roc"), none)])]
    (some (1 / 2))
    (by norm_num) (by norm_num)
    (by
      intro mt hmt x hx
      simp only [List.mem_singleton] at hmt
      subst hmt
      simp [valid_values] at hx
      subst hx
      norm_num)
  exact ⟨h.1, h.2.1⟩

/-- Partition dict built by `DistributedComputeOrchestrator.prepare_partitions`
in `src/offchain/ocean_compute.py`: a reference to the whole dataset plus a
partition index — the returned dicts carry no record range. -/
structure PartitionDict where
  did : String
  partition_id : Nat
deriving DecidableEq

/-- The `prepare_partitions` code of `ocean_compute.py` (lines 22-24): it
returns `[{'did': dataset_did, 'partition_id': i} for i in
range(partition_config.get('num_partitions', 1))]`, ignoring the
`strategy` option and the dataset's declared record count entirely. -/
def prepare_partitions (dataset_did : String) (strategy : Option String)
    (num_partitions : Option Nat) : List PartitionDict :=
  match strategy with
  | _ => (List.range (num_partitions.getD 1)).map
      (fun i => ⟨dataset_did, i⟩)

/-- C2 (code bug): at the failing input — a dataset of declared record
count 10 partitioned with `strategy = equal_size`, `num_partitions = 3` —
`prepare_partitions` returns three dicts that each reference the whole
dataset and carry no record range at all, and the very same dicts for any
other strategy, instead of the three contiguous, non-overlapping record
ranges covering exactly the 10 records that the claim (and the
`equal_size` contract) requires. -/
theorem prepare_partitions_no_ranges :
    prepare_partitions ("did:op:dataset") (some ("equal_size")) (some 3)
      = [⟨("did:op:dataset"), 0⟩, ⟨("did:op:dataset"), 1⟩, ⟨("did:op:dataset"), 2⟩] ∧
    (prepare_partitions ("did:op:dataset") (some ("equal_size")) (some 3)).map
        PartitionDict.did
      = [("did:op:dataset"), ("did:op:dataset"), ("did:op:dataset")] ∧
    prepare_partitions ("did:op:dataset") (some ("equal_size")) (some 3)
      = prepare_partitions ("did:op:dataset") (some ("by_key")) (some 3) := by
  refine ⟨?_, ?_, rfl⟩ <;> rfl

/-- Terminal-status test of the monitor loop body:
`all(s in [completed, failed] for s in statuses)`. -/
def all_terminal (statuses : List String) : Bool :=
  statuses.all (fun s => decide (s = "completed") || decide (s = "failed"))

/-- The `while not completed` loop of `monitor_distributed_compute`,
fuel-indexed: at poll round `t` every job's status is read (`statusAt t j`
stands for the `_get_job_status` response for job `j` at that round), the
loop exits when all statuses are terminal and otherwise sleeps
`check_interval` and repeats.  The source accepts no timeout, so the
all-terminal exit is the only one; `fuel` bounds how many rounds are
unrolled. -/
def monitor_loop (jobs : List String) (statusAt : Nat → String → String) :
    Nat → Nat → Option (List String)
  | 0, _ => none
  | fuel + 1, t =>
    let statuses := jobs.map (statusAt t)
    if all_terminal statuses then some statuses
    else monitor_loop jobs statusAt fuel (t + 1)

/-- The monitor call returns within some number of poll rounds. -/
def monitor_returns (jobs : List String) (statusAt : Nat → String → String) : Prop :=
  ∃ fuel, (monitor_loop jobs statusAt fuel 0).isSome

/-- C3 counterexample: a group with a single job that reports `running` at
every poll round makes `monitor_distributed_compute` loop forever — no
number of rounds suffices for it to return, because the source has no
timeout parameter and marks no job `Failed` with reason `Timeout`. -/
theorem monitor_spins_forever :
    ¬ monitor_returns ["job-1"] (fun _ _ => "running") := by
  intro hcontra
  obtain ⟨fuel, hfuel⟩ := hcontra
  have hnone : ∀ f t, monitor_loop ["job-1"] (fun _ _ => "running") f t = none := by
    intro f
    induction f with
    | zero => intro t; rfl
    | succ g ih =>
      intro t
      have hterm : all_terminal (["job-1"].map (fun _ => "running")) = false := by
        decide
      simp only [monitor_loop, hterm, Bool.false_eq_true, if_false]
      exact ih (t + 1)
  rw [hnone fuel 0] at hfuel
  simp at hfuel

/-- C3 (amended): `monitor_distributed_compute` has no timeout: it returns
only once every job of the group reports a terminal status, and the
snapshot it then hands to aggregation is exactly the reported status of
every job of the group — one entry per job, none dropped, none rewritten
to `Failed`/`Timeout`; conversely it does return as soon as some poll
round observes all jobs terminal. -/
theorem monitor_terminal_only (jobs : List String)
    (statusAt : Nat → String → String) :
    (∀ fuel t sts, monitor_loop jobs statusAt fuel t = some sts →
        sts.length = jobs.length ∧
        ∃ u, t ≤ u ∧ sts = jobs.map (statusAt u) ∧ all_terminal sts = true) ∧
    (∀ fuel t0 n, n < fuel →
        all_terminal (jobs.map (statusAt (t0 + n))) = true →
        (monitor_loop jobs statusAt fuel t0).isSome = true) := by
  constructor
  · intro fuel
    induction fuel with
    | zero =>
      intro t sts h
      simp [monitor_loop] at h
    | succ g ih =>
      intro t sts h
      simp only [monitor_loop] at h
      by_cases hterm : all_terminal (jobs.map (statusAt t)) = true
      · rw [if_pos hterm] at h
        have hsts := Option.some.inj h
        subst hsts
        exact ⟨by simp, t, Nat.le_refl t, rfl, hterm⟩
      · rw [if_neg hterm] at h
        obtain ⟨hlen, u, hu, hsts, hall⟩ := ih (t + 1) sts h
        exact ⟨hlen, u, by omega, hsts, hall⟩
  · intro fuel
    induction fuel with
    | zero =>
      intro t0 n hn
      exact absurd hn (Nat.not_lt_zero n)
    | succ g ih =>
      intro t0 n hn hall
      simp only [monitor_loop]
      by_cases hterm : all_terminal (jobs.map (statusAt t0)) = true
      · rw [if_pos hterm]
        rfl
      · rw [if_neg hterm]
        cases n with
        | zero => exact absurd hall hterm
        | succ m =>
          have harg : t0 + 1 + m = t0 + (m + 1) := by omega
          exact ih (t0 + 1) m (by omega) (by rw [harg]; exact hall)

/-- Status stream where every job is running at round 0 and completed from
round 1 on, used as a concrete input below. -/
def demoStatusAt (t : Nat) (_ : String) : String :=
  if t = 0 then "running" else "completed"

/-- Witness for `monitor_terminal_only`: with two jobs that become terminal
at round 1, the loop returns within two rounds. -/
theorem monitor_terminal_only_witness :
    (monitor_loop ["j1", "j2"] demoStatusAt 2 0).isSome = true :=
  (monitor_terminal_only ["j1", "j2"] demoStatusAt).2 2 0 1 (by norm_num) (by decide)

/-- The dispatch loop of `start_distributed_compute`: partitions are
dispatched one after another (`for partition in partitions: await
_start_partition_compute(...)`), and an exception from one dispatch
propagates out of the loop.  The first component records which partitions
the loop actually called dispatch on, in order; the second is the loop's
outcome — the job list, or the first error. -/
def dispatch_run {P E J : Type} (dispatch : P → Except E J) :
    List P → List P × Except E (List J)
  | [] => ([], Except.ok [])
  | p :: ps =>
    match dispatch p with
    | Except.error e => ([p], Except.error e)
    | Except.ok j =>
      match dispatch_run dispatch ps with
      | (calls, Except.error e) => (p :: calls, Except.error e)
      | (calls, Except.ok js) => (p :: calls, Except.ok (j :: js))

/-- Dispatch function that raises `DispatchFailure` exactly on partition 1,
used as a concrete input below. -/
def failing_dispatch (p : Nat) : Except String Nat :=
  if p = 1 then Except.error ("DispatchFailure") else Except.ok p

/-- C4 counterexample: in a group of three partitions where exactly the
second dispatch raises `DispatchFailure`, the loop calls dispatch on
partitions 0 and 1 only and propagates the error — partition 2, one of the
remaining N−1 siblings, is never dispatched, contradicting the claim that
the failure leaves sibling dispatches unaffected. -/
theorem dispatch_abort_example :
    (dispatch_run failing_dispatch [0, 1, 2]).1 = [0, 1] ∧
    (dispatch_run failing_dispatch [0, 1, 2]).2 = Except.error ("DispatchFailure") ∧
    2 ∉ (dispatch_run failing_dispatch [0, 1, 2]).1 := by
  refine ⟨rfl, rfl, ?_⟩
  decide

theorem dispatch_run_cons_ok {P E J : Type} (dispatch : P → Except E J)
    (q : P) (j : J) (ps : List P) (hq : dispatch q = Except.ok j) :
    dispatch_run dispatch (q :: ps) =
      (q :: (dispatch_run dispatch ps).1,
        match (dispatch_run dispatch ps).2 with
        | Except.error e => Except.error e
        | Except.ok js => Except.ok (j :: js)) := by
  rcases h : dispatch_run dispatch ps with ⟨calls, res⟩
  cases res <;> simp [dispatch_run, hq, h]

/-- C4 (amended): a `DispatchFailure` for one partition aborts the group's
dispatch loop: every partition before the failing one is dispatched, the
failing one raises, no later partition is dispatched, and the error
propagates to the caller of `start_distributed_compute` (so no job group
is registered). -/
theorem dispatch_run_aborts {P E J : Type} (dispatch : P → Except E J)
    (pre post : List P) (p : P) (e : E)
    (hpre : ∀ q ∈ pre, ∃ j, dispatch q = Except.ok j)
    (hp : dispatch p = Except.error e) :
    (dispatch_run dispatch (pre ++ p :: post)).1 = pre ++ [p] ∧
    (dispatch_run dispatch (pre ++ p :: post)).2 = Except.error e := by
  induction pre with
  | nil =>
    simp [dispatch_run, hp]
  | cons q qs ih =>
    obtain ⟨j, hq⟩ := hpre q (by simp)
    obtain ⟨ih1, ih2⟩ := ih (fun r hr => hpre r (by simp [hr]))
    rw [List.cons_append, dispatch_run_cons_ok dispatch q j _ hq]
    constructor
    · simp [ih1]
    · simp [ih2]

/-- Witness for `dispatch_run_aborts` with one successful partition before
the failing one and one partition after it. -/
theorem dispatch_run_aborts_witness :
    (dispatch_run failing_dispatch ([0] ++ 1 :: [2])).1 = [0] ++ [1] ∧
    (dispatch_run failing_dispatch ([0] ++ 1 :: [2])).2
      = Except.error ("DispatchFailure") :=
  dispatch_run_aborts failing_dispatch [0] [2] 1 ("DispatchFailure")
    (by intro q hq; simp at hq; subst hq; exact ⟨0, rfl⟩) rfl

/-- Resource check of `_validate_environment`: each requested resource
amount is compared against the environment's declared capacity (missing
keys default to 0), raising on the first violation. -/
def check_resources (res : List (String × Nat)) :
    List (String × Nat) → Except String Unit
  | [] => Except.ok ()
  | (k, v) :: rest =>
    if (List.lookup k res).getD 0 < v then Except.error ("Insufficient " ++ k)
    else check_resources res rest

/-- The `_validate_environment` check of `ocean_compute.py`: the
environment name must be in the catalog and every requested resource must
fit its declared capacity. -/
def validate_environment (envs : List (String × List (String × Nat)))
    (name : String) (required : List (String × Nat)) :
    Except String (List (String × Nat)) :=
  match List.lookup name envs with
  | none => Except.error ("Unsupported environment: " ++ name)
  | some res =>
    match check_resources res required with
    | Except.error e => Except.error e
    | Except.ok _ => Except.ok res

/-- Numeric resource capacities of the static environment catalog built by
the environment-catalog initializer of `ocean_compute.py` (the non-numeric
`gpu_type` entry, never meaningfully comparable by the validation check,
is omitted). -/
def environments : List (String × List (String × Nat)) :=
  [("pytorch-gpu", [("cpu_cores", 8), ("memory_gb", 32), ("gpu_count", 1)]),
   ("tensorflow-gpu", [("cpu_cores", 8), ("memory_gb", 32), ("gpu_count", 1)]),
   ("sklearn-cpu", [("cpu_cores", 16), ("memory_gb", 64), ("gpu_count", 0)]),
   ("r-analytics", [("cpu_cores", 8), ("memory_gb", 32), ("gpu_count", 0)])]

/-- The `start_distributed_compute` entry point: the environment is
validated first; only on success does the partition dispatch loop run, and
only a fully successful loop registers a job group (the `ok` payload).
The first component again records the dispatch calls actually made. -/
def start_distributed_compute {P J : Type}
    (envs : List (String × List (String × Nat))) (name : String)
    (required : List (String × Nat)) (partitions : List P)
    (dispatch : P → Except String J) : List P × Except String (List J) :=
  match validate_environment envs name required with
  | Except.error e => ([], Except.error e)
  | Except.ok _ => dispatch_run dispatch partitions

theorem check_resources_violation (res required : List (String × Nat))
    (hviol : ∃ kv ∈ required, (List.lookup kv.1 res).getD 0 < kv.2) :
    ∃ k, check_resources res required = Except.error ("Insufficient " ++ k) := by
  induction required with
  | nil => simp at hviol
  | cons kv rest ih =>
    obtain ⟨k0, v0⟩ := kv
    by_cases h : (List.lookup k0 res).getD 0 < v0
    · exact ⟨k0, by simp [check_resources, h]⟩
    · rcases hviol with ⟨kv1, hkv1, hlt⟩
      rcases List.mem_cons.mp hkv1 with heq | hmem
      · rw [heq] at hlt
        simp only at hlt
        exact absurd hlt h
      · obtain ⟨k, hk⟩ := ih ⟨kv1, hmem, hlt⟩
        exact ⟨k, by simp [check_resources, h, hk]⟩

/-- C6: every `start_distributed_compute` call that fails environment
validation — unknown environment name, or some requested resource amount
exceeding the environment's declared capacity — raises before the
partition loop runs: no dispatch call is made and no job group is
registered. -/
theorem validation_failure_no_dispatch {P J : Type}
    (envs : List (String × List (String × Nat))) (name : String)
    (required : List (String × Nat)) (partitions : List P)
    (dispatch : P → Except String J) :
    (List.lookup name envs = none →
      start_distributed_compute envs name required partitions dispatch
        = ([], Except.error ("Unsupported environment: " ++ name))) ∧
    (∀ res, List.lookup name envs = some res →
      (∃ kv ∈ required, (List.lookup kv.1 res).getD 0 < kv.2) →
      ∃ k, start_distributed_compute envs name required partitions dispatch
        = ([], Except.error ("Insufficient " ++ k))) := by
  constructor
  · intro hnone
    simp [start_distributed_compute, validate_environment, hnone]
  · intro res hres hviol
    obtain ⟨k, hk⟩ := check_resources_violation res required hviol
    exact ⟨k, by simp [start_distributed_compute, validate_environment, hres, hk]⟩

/-- Witness for `validation_failure_no_dispatch`: an unknown environment
name against the static catalog dispatches nothing. -/
theorem validation_failure_no_dispatch_witness :
    start_distributed_compute environments ("quantum-annealer") []
        ([0, 1] : List Nat) (fun p => Except.ok p)
      = ([], Except.error ("Unsupported environment: " ++ "quantum-annealer")) :=
  (validation_failure_no_dispatch environments ("quantum-annealer") [] [0, 1]
    (fun p => Except.ok p)).1 rfl

/-- Job-group storage of the metrics tracker: the single source of job
state that aggregation reads. -/
structure TrackerState where
  groups : List (String × List Job)
deriving DecidableEq

/-- The `get_jobs_in_group` read of the metrics tracker, as a state
transformer: a pure lookup that leaves the tracker unchanged. -/
def get_jobs_in_group (s : TrackerState) (gid : String) :
    List Job × TrackerState :=
  ((List.lookup gid s.groups).getD [], s)

/-- Modelled from the spec: the result fetch `_get_job_results` called by
`_aggregate_results` is absent from `src`; per the spec the Aggregate
Result is derived, never mutated after creation and recomputed fresh for
each aggregation call, so the fetch is a pure read of the job record that
leaves the tracker unchanged. -/
def get_job_results (s : TrackerState) (j : Job) : Job × TrackerState := (j, s)

/-- The `get_job_metrics` read of the metrics tracker, as a state
transformer: a pure read of the job's metric dict. -/
def get_job_metrics (s : TrackerState) (j : Job) :
    List (String × ℚ) × TrackerState :=
  (j.metrics, s)

/-- Body of the aggregation loop threaded through the tracker state: the
job-result fetch, the counting branch, then the metrics fetch and fold. -/
def aggregate_step_st (acc : AggState × TrackerState) (j : Job) :
    AggState × TrackerState :=
  let jr := get_job_results acc.2 j
  let a1 := stepCounts acc.1 jr.1
  let ms := get_job_metrics jr.2 j
  ({ a1 with metricLists := foldJobMetrics a1.metricLists ms.1 }, ms.2)

/-- The `_aggregate_results` call as a state transformer on the tracker. -/
def aggregate_results_st (s : TrackerState) (gid : String) :
    AggregatedResults × TrackerState :=
  let js := get_jobs_in_group s gid
  let r := js.1.foldl aggregate_step_st (initAgg, js.2)
  (finalizeAgg r.1, r.2)

theorem aggregate_step_st_eq (a : AggState) (s : TrackerState) (j : Job) :
    aggregate_step_st (a, s) j = (stepJob a j, s) := rfl

theorem foldl_aggregate_step_st (jobs : List Job) (a : AggState) (s : TrackerState) :
    jobs.foldl aggregate_step_st (a, s) = (jobs.foldl stepJob a, s) := by
  induction jobs generalizing a with
  | nil => rfl
  | cons j js ih =>
    rw [List.foldl_cons, List.foldl_cons, aggregate_step_st_eq, ih]

/-- C7: aggregation only reads the tracker — the tracker state it returns
is the state it was given — so on a group whose jobs are all terminal a
second `_aggregate_results` call with no intervening job state change
observes the same job records and returns an identical
`AggregatedResults` value. -/
theorem aggregate_idempotent (s : TrackerState) (gid : String)
    (hterm : ∀ j ∈ (List.lookup gid s.groups).getD [],
        j.status = "completed" ∨ j.status = "failed") :
    (aggregate_results_st s gid).2 = s ∧
    aggregate_results_st (aggregate_results_st s gid).2 gid
      = aggregate_results_st s gid := by
  have hstate : (aggregate_results_st s gid).2 = s := by
    simp only [aggregate_results_st, get_jobs_in_group, foldl_aggregate_step_st]
  exact ⟨hstate, by rw [hstate]⟩

/-- Tracker holding one fully terminal job group, used as a concrete input
below. -/
def demoTracker : TrackerState :=
  ⟨[("group-1", [demoGoodJob, demoFailedJob])]⟩

/-- Witness for `aggregate_idempotent` on a concrete terminal group. -/
theorem aggregate_idempotent_witness :
    aggregate_results_st (aggregate_results_st demoTracker ("group-1")).2 ("group-1")
      = aggregate_results_st demoTracker ("group-1") :=
  (aggregate_idempotent demoTracker ("group-1")
    (by
      intro j hj
      have hlist : (List.lookup ("group-1") demoTracker.groups).getD []
          = [demoGoodJob, demoFailedJob] := rfl
      rw [hlist] at hj
      simp at hj
      rcases hj with h | h
      · rw [h]
        exact Or.inl rfl
      · rw [h]
        exact Or.inr rfl)).2

/-- Outcome of one `try: calculator(results) except:` body of
`_calculate_metrics`. -/
def exceptResult {E A : Type} : Except E A → Option A
  | Except.ok v => some v
  | Except.error _ => none

/-- Inner loop of `_calculate_metrics` over the calculators of one metric
type: a calculator that raises stores `None` under its metric name and the
loop continues with the remaining calculators. -/
def calc_type_loop {R : Type} (results : R) :
    List (String × (R → Except String ℚ)) → List (String × Option ℚ)
  | [] => []
  | (mname, calculator) :: rest =>
    match calculator results with
    | Except.ok v => (mname, some v) :: calc_type_loop results rest
    | Except.error _ => (mname, none) :: calc_type_loop results rest

/-- The `_calculate_metrics` loop of `model_evaluation.py`: requested
metric types present in the registry are computed in request order,
unknown types are silently skipped. -/
def calculate_metrics {R : Type}
    (registry : List (String × List (String × (R → Except String ℚ))))
    (metric_types : List String) (results : R) :
    List (String × List (String × Option ℚ)) :=
  metric_types.filterMap (fun mt =>
    (List.lookup mt registry).map
      (fun calcs => (mt, calc_type_loop results calcs)))

/-- Generic dict access keyed by strings. -/
def dictLookup {A : Type} : List (String × A) → String → Option A
  | [], _ => none
  | (k0, v) :: rest, k => if k0 = k then some v else dictLookup rest k

theorem calc_type_loop_eq {R : Type} (results : R)
    (calcs : List (String × (R → Except String ℚ))) :
    calc_type_loop results calcs
      = calcs.map (fun nc => (nc.1, exceptResult (nc.2 results))) := by
  induction calcs with
  | nil => rfl
  | cons nc rest ih =>
    obtain ⟨mname, calculator⟩ := nc
    cases h : calculator results <;>
      simp [calc_type_loop, exceptResult, h, ih]

theorem dictLookup_calculate_metrics {R : Type}
    (registry : List (String × List (String × (R → Except String ℚ))))
    (results : R) (mt : String)
    (calcs : List (String × (R → Except String ℚ)))
    (hreg : List.lookup mt registry = some calcs) :
    ∀ metric_types, mt ∈ metric_types →
      dictLookup (calculate_metrics registry metric_types results) mt
        = some (calc_type_loop results calcs) := by
  intro mts
  induction mts with
  | nil =>
    intro h
    simp at h
  | cons t ts ih =>
    intro hmem
    by_cases ht : t = mt
    · subst ht
      simp [calculate_metrics, List.filterMap_cons, hreg, dictLookup]
    · rcases List.mem_cons.mp hmem with h | h
      · exact absurd h.symm ht
      · cases hl : List.lookup t registry with
        | none =>
          simpa [calculate_metrics, List.filterMap_cons, hl] using ih h
        | some calcs2 =>
          simpa [calculate_metrics, List.filterMap_cons, hl, dictLookup, ht]
            using ih h

/-- C10: for every requested metric type present in the registry, metric
computation absorbs calculator exceptions: the type's entry maps each
metric name to `some` value when its calculator returns and to `none`
when it raises, so one raising calculator poisons neither the remaining
metrics of the type nor the overall computation. -/
theorem metrics_absorb_exceptions {R : Type}
    (registry : List (String × List (String × (R → Except String ℚ))))
    (metric_types : List String) (results : R) (mt : String)
    (calcs : List (String × (R → Except String ℚ)))
    (hreg : List.lookup mt registry = some calcs)
    (hmt : mt ∈ metric_types) :
    dictLookup (calculate_metrics registry metric_types results) mt
      = some (calc_type_loop results calcs) ∧
    calc_type_loop results calcs
      = calcs.map (fun nc => (nc.1, exceptResult (nc.2 results))) :=
  ⟨dictLookup_calculate_metrics registry results mt calcs hreg metric_types hmt,
   calc_type_loop_eq results calcs⟩

/-- Registry with one metric type holding one returning and one raising
calculator, used as a concrete input below. -/
def demoRegistry : List (String × List (String × (Unit → Except String ℚ))) :=
  [("classification",
    [("accuracy", fun _ => Except.ok (9 / 10)),
     ("auc_roc", fun _ => Except.error ("boom"))])]

/-- Witness for `metrics_absorb_exceptions` on the demo registry. -/
theorem metrics_absorb_exceptions_witness :
    dictLookup (calculate_metrics demoRegistry ["classification"] ())
        ("classification")
      = some (calc_type_loop ()
          [(("accuracy"), fun _ => Except.ok (9 / 10)),
           (("auc_roc"), fun _ => Except.error ("boom"))]) :=
  (metrics_absorb_exceptions demoRegistry ["classification"] () ("classification")
    [(("accuracy"), fun _ => Except.ok (9 / 10)),
     (("auc_roc"), fun _ => Except.error ("boom"))]
    rfl (by simp)).1
